import Mathlib

/-!
Verification of the iotencoder stream-encoder service.

This file shallowly embeds the parts of the Go source that the claims
C1..C10 are about, and proves (or refutes) each claim against that
embedding.  Conventions used throughout:

* Go `float64` values are modelled as rationals (`ℚ`): every claim in
  scope is about orderings, one-hot vectors and exact arithmetic means,
  for which the rational order is the intended reading.  (`NaN` is not
  representable; no claim in scope depends on it.)
* Unix timestamps (Go `time.Time` / `.Unix()` seconds) are modelled as
  `Int`; the second-valued intervals (`uint32`) as `ℕ` cast to `Int`
  where arithmetic mixes them.
* Fallible Go functions are modelled with `Except` / `Option`; external
  effects (the MQTT broker, zenroom, the datastore client) are
  parameterised by their outcome so the control flow of the Go code can
  be followed exactly.
-/

namespace Iotencoder

/-! ## pkg/pipeline: `BinValue` (pipeline.go in src/unnamed/part_028)

The Go source builds `binnedValues := make([]int, len(bins)+1)`, walks the
bin boundaries in order, sets a single `1` the first time the condition
holds (then breaks out of the loop), and, when no boundary matched, sets
the final slot.  `binSearchFrom` is the loop (returning the index at
which the loop set a `1` and broke, if any), and `BinValue` assembles the
result exactly as the Go function does. -/

/-- The scan loop of `BinValue`: starting at index `i`, return the first
index at which the Go loop would set a `1` and break.  At index `0` the
condition is `value < bins[0]`; at later indices it is
`value < bins[i] && value >= bins[i-1]`. -/
def binSearchFrom (value : ℚ) (bins : List ℚ) (i : ℕ) : Option ℕ :=
  if h : i < bins.length then
    if (if i = 0 then value < bins[i] else value < bins[i] ∧ bins[i - 1] ≤ value) then
      some i
    else
      binSearchFrom value bins (i + 1)
  else
    none
termination_by bins.length - i

/-- Faithful translation of `BinValue` from `pkg/pipeline/pipeline.go`:
a zero vector of length `len(bins)+1` with a single `1` written either at
the index where the scan loop classified the value, or at the last index
when the loop finished without classifying. -/
def BinValue (value : ℚ) (bins : List ℚ) : List Int :=
  let binnedValues := List.replicate (bins.length + 1) (0 : Int)
  match binSearchFrom value bins 0 with
  | some i => binnedValues.set i 1
  | none => binnedValues.set bins.length 1

/-- Spec-side definition (from the words of the specification, §4.4 /
§8.7): the smallest index `i` such that `value < bins[i]`, or
`bins.length` when no such index exists. -/
def binIndexSpec (value : ℚ) (bins : List ℚ) : ℕ :=
  match bins with
  | [] => 0
  | b :: rest => if value < b then 0 else binIndexSpec value rest + 1

/-- Spec-side definition: the one-hot vector of length `n` with its `1`
at index `k`. -/
def oneHot (n k : ℕ) : List Int :=
  (List.range n).map fun j => if j = k then 1 else 0

/-! ## pkg/pipeline/moving_averager.go — the in-process MovingAverager

The Go store is a map keyed by `deviceToken:sensorID:interval`; distinct
keys never interact, so we model the state for one key.  `none` models
the key being absent from the map (the `!ok` branch of the Go code);
after the first call the slice is always non-empty, so `some []` is
unreachable. -/

/-- The `entry` struct of moving_averager.go. -/
structure MAEntry where
  Timestamp : Int
  Value : ℚ
deriving DecidableEq, Repr

/-- Faithful translation of `movingAverager.MovingAverage` for one key.
Returns the new slice stored into the map, and the returned average.
The Go loop skips entries with `Timestamp < previousTime`, totals the
remaining ones, then appends the new entry; when the key is absent it
stores the singleton slice and returns the value directly. -/
def movingAverage (state : Option (List MAEntry)) (value : ℚ) (now : Int)
    (interval : ℕ) : List MAEntry × ℚ :=
  let previousTime : Int := now - (interval : Int)
  match state with
  | none => ([⟨now, value⟩], value)
  | some entries =>
    let kept := entries.filter fun e => !(decide (e.Timestamp < previousTime))
    let newEntries := kept ++ [⟨now, value⟩]
    let counter : ℕ := kept.length + 1
    let accumulator : ℚ := (kept.map MAEntry.Value).sum + value
    (newEntries, accumulator / (counter : ℚ))

/-! ## pkg/redis/redis.go — the Redis-backed MovingAverager

`Redis.MovingAverage` uses a sorted set per key: `ZAdd` inserts the
member string `"value:timestamp"` with score `timestamp` (set semantics
on members), `ZRangeByScore` reads the members with score in the
inclusive range `[now-interval, now]`, and `ZRemRangeByScore` removes
the members with score in `(-inf, now-interval]` (both ends inclusive in
Redis).  We model the sorted set as a duplicate-free list of
`(value, timestamp)` pairs in insertion order (for all claims in scope
timestamps are strictly increasing, so insertion order is score order and
member strings are pairwise distinct). -/

/-- ZAdd with score `m.2`: a no-op when the member already exists. -/
def zadd (s : List (ℚ × Int)) (m : ℚ × Int) : List (ℚ × Int) :=
  if m ∈ s then s else s ++ [m]

/-- `CalculateAverage` from redis.go, at the parsed level: `0` for an
empty list, else the sum of the values divided by the count.  (The Go
string-splitting of `"value:timestamp"` members always succeeds on
members produced by `MovingAverage` itself.) -/
def calculateAverage (vals : List (ℚ × Int)) : ℚ :=
  if vals.length = 0 then 0
  else (vals.map Prod.fst).sum / (vals.length : ℚ)

/-- Faithful translation of `Redis.MovingAverage` for one key: ZAdd the
new sample, read the inclusive window `[now-interval, now]`, remove the
scores in `(-inf, now-interval]`, and return the average of the values
read.  Returns the sorted-set state after the call and the average. -/
def redisMovingAverage (s : List (ℚ × Int)) (value : ℚ) (now : Int)
    (interval : ℕ) : List (ℚ × Int) × ℚ :=
  let previousTime : Int := now - (interval : Int)
  let s1 := zadd s (value, now)
  let vals := s1.filter fun m => decide (previousTime ≤ m.2) && decide (m.2 ≤ now)
  let s2 := s1.filter fun m => !(decide (m.2 ≤ previousTime))
  (s2, calculateAverage vals)

/-- One `MovingAverage` call for a fixed key: the clock time of the call
and the sample value. -/
structure MACall where
  t : Int
  v : ℚ
deriving DecidableEq, Repr

/-- The in-memory map slot for the key after a sequence of calls,
starting from the key being absent. -/
def memStateAfter (interval : ℕ) (calls : List MACall) : Option (List MAEntry) :=
  calls.foldl (fun s c => some (movingAverage s c.v c.t interval).1) none

/-- The value returned by a final call `c` made after the calls `cs`. -/
def memRun (interval : ℕ) (cs : List MACall) (c : MACall) : ℚ :=
  (movingAverage (memStateAfter interval cs) c.v c.t interval).2

/-- The Redis sorted set for the key after a sequence of calls, starting
from the key being absent (an empty sorted set). -/
def redisStateAfter (interval : ℕ) (calls : List MACall) : List (ℚ × Int) :=
  calls.foldl (fun s c => (redisMovingAverage s c.v c.t interval).1) []

/-- The value returned by a final Redis call `c` made after `cs`. -/
def redisRun (interval : ℕ) (cs : List MACall) (c : MACall) : ℚ :=
  (redisMovingAverage (redisStateAfter interval cs) c.v c.t interval).2

/-! ## Processor.Process (pipeline.go in src/unnamed/part_028, lines 181-257)

`Process` iterates over `device.Streams` in slice order.  For each stream
it runs `processDevice` (which may fail, e.g. a MovingAverage error),
then `zenroom.Exec` (encryption; on error it increments the zenroom error
counter), then `datastore.WriteData` (on error it increments the
datastore error counter).  After any of the three errors the Go code
executes `return err`, abandoning the remaining streams.  The three
external outcomes are parameterised per stream. -/

/-- The outcome of the three fallible steps for one stream: which step, if
any, fails when this stream is processed. -/
inductive StreamOutcome
  | procFail
  | encFail
  | writeFail
  | ok
deriving DecidableEq, Repr

/-- The loop of `Process`, carrying the index of the current stream:
returns the indices of the streams whose datastore write succeeded, and
whether `Process` returned nil.  A `procFail`/`encFail` stream gets no
write and aborts; a `writeFail` stream's write is attempted but fails,
and aborts; an `ok` stream's write succeeds and the loop continues. -/
def processFrom (i : ℕ) : List StreamOutcome → List ℕ × Bool
  | [] => ([], true)
  | o :: rest =>
    match o with
    | StreamOutcome.ok =>
      let r := processFrom (i + 1) rest
      (i :: r.1, r.2)
    | _ => ([], false)

/-- `Processor.Process` over the streams of one device: the successful
datastore writes (by stream index) and whether the call returned nil. -/
def ProcessRun (streams : List StreamOutcome) : List ℕ × Bool :=
  processFrom 0 streams

/-! ## processDevice, BIN case (part_028 lines 295-312) with a missing value

The raw payload field is a Go `float64` (smartcitizen `RawSensor.Value`);
`encoding/json` leaves the zero value `0` in the field when the JSON
value is `null`, and `ParseData` then wraps it with `null.FloatFrom`, so
`sensor.Value.Float64` is `0` for a missing value. -/

/-- The float64 the pipeline sees for a raw sensor value that may be
JSON-null (`none`). -/
def rawSensorValue (raw : Option ℚ) : ℚ :=
  raw.getD 0

/-- The `Values` field emitted by `processDevice` for a BIN operation:
`BinValue(sensor.Value.Float64, operation.Bins)`. -/
def binnedValuesEmitted (raw : Option ℚ) (bins : List ℚ) : List Int :=
  BinValue (rawSensorValue raw) bins

/-! ## encoderImpl.extractToken / handleCallback (pkg/rpc/encoder.go)

The topic pattern is the unanchored Go regexp
`device/sck/(\w+)/readings`; `FindStringSubmatch` returns the capture of
the leftmost match or nil.  `handleCallback` logs an extraction error but
does not return: it continues with the zero-value token `""` into the
registry lookup, and likewise continues into `Process` after a lookup
error (with a nil device). -/

/-- Go regexp `\w`: ASCII letters, digits and underscore (Go's `\w` also
matches Unicode letters only with different flags; device tokens are
ASCII). -/
def isWordChar (ch : Char) : Bool :=
  ch.isAlphanum || ch = '_'

/-- Try to match `device/sck/(\w+)/readings` starting at this position,
returning the capture group. -/
def matchTokenHere (s : List Char) : Option (List Char) :=
  let pre := "device/sck/".toList
  if s.take pre.length = pre then
    let rest := s.drop pre.length
    let tok := rest.takeWhile isWordChar
    let post := "/readings".toList
    if tok.length ≠ 0 ∧ (rest.drop tok.length).take post.length = post then
      some tok
    else none
  else none

/-- Leftmost-match search of the pattern over the topic characters. -/
def findTokenFrom : List Char → Option (List Char)
  | [] => none
  | ch :: rest =>
    match matchTokenHere (ch :: rest) with
    | some tok => some tok
    | none => findTokenFrom rest

/-- `encoderImpl.extractToken`: the capture group of the leftmost match,
or the error when `FindStringSubmatch` returns nil. -/
def extractToken (topic : String) : Except String String :=
  match findTokenFrom topic.toList with
  | some tok => Except.ok (String.mk tok)
  | none => Except.error ("Unable to extract device token from: " ++ topic)

/-- The observable actions of `handleCallback`, in order. -/
inductive CallbackEvent
  | logExtractError
  | getDevice (token : String)
  | logGetDeviceError
  | processCalled (deviceFound : Bool)
deriving DecidableEq, Repr

/-- `encoderImpl.handleCallback`: extract the token (logging on error but
continuing with the Go zero value `""`), call `db.GetDevice(token)`
(logging on error but continuing with a nil device), then call
`processor.Process`.  `deviceExists` abstracts whether the registry
lookup succeeds for a token. -/
def handleCallback (deviceExists : String → Bool) (topic : String) :
    List CallbackEvent :=
  let tokenRes := extractToken topic
  let extractEvents := match tokenRes with
    | Except.ok _ => []
    | Except.error _ => [CallbackEvent.logExtractError]
  let token := match tokenRes with
    | Except.ok t => t
    | Except.error _ => ""
  let lookupEvents := if deviceExists token then [CallbackEvent.getDevice token]
    else [CallbackEvent.getDevice token, CallbackEvent.logGetDeviceError]
  extractEvents ++ lookupEvents ++ [CallbackEvent.processCalled (deviceExists token)]

/-! ## pkg/mqtt/mqtt.go — the subscription manager (second version in the
file: the one with the `subscriptions` map, lines 197-381; `Stop` at
282-294 and `Subscribe` at 299-329)

The client holds `clients : map[string]paho.Client` (keyed by broker) and
`subscriptions : map[string]bool` (keyed by topic).  Both maps are
modelled as lists of keys; the paho client objects and handlers carry no
state the claims depend on, and all broker calls are assumed to
succeed. -/

structure MqttState where
  clients : List String
  subscriptions : List String
deriving DecidableEq, Repr

def emptyMqtt : MqttState := ⟨[], []⟩

/-- `client.Stop`: disconnect and delete every broker client.  The
`subscriptions` map is not touched. -/
def mqttStop (s : MqttState) : MqttState :=
  ⟨[], s.subscriptions⟩

/-- `client.Subscribe`: skip everything when the topic is already in the
subscriptions map; otherwise get-or-connect the broker client, subscribe
on it, and record the topic.  The Bool reports whether a broker
subscription was actually established by this call. -/
def mqttSubscribe (s : MqttState) (broker topic : String) : MqttState × Bool :=
  if topic ∈ s.subscriptions then (s, false)
  else
    let clients := if broker ∈ s.clients then s.clients else s.clients ++ [broker]
    (⟨clients, s.subscriptions ++ [topic]⟩, true)

/-- `client.Unsubscribe`: get-or-connect the broker client, unsubscribe,
and delete the topic from the subscriptions map. -/
def mqttUnsubscribe (s : MqttState) (broker topic : String) : MqttState :=
  let clients := if broker ∈ s.clients then s.clients else s.clients ++ [broker]
  ⟨clients, s.subscriptions.filter fun t => !(decide (t = topic))⟩

/-! ## pkg/postgres/postgres.go — Operations JSON round trip (lines 97-119)

`Operations.Value` is `json.Marshal` of `[]*Operation`; `Operations.Scan`
is `json.Unmarshal` of the stored bytes.  We model the JSON layer at the
level of JSON values (Go guarantees that the printed bytes parse back to
the same JSON value: float64 and string printing round-trip), with
numbers carried exactly. -/

/-- A JSON value as encoding/json sees it. -/
inductive Json
  | null
  | num (q : ℚ)
  | str (s : String)
  | arr (xs : List Json)
  | obj (fields : List (String × Json))

/-- The `Operation` struct of postgres.go.  `SensorID` and `Interval` are
`uint32` (modelled as ℕ with the 2^32 bound carried in theorems),
`Action` is the string-typed tag, and `Bins` is a `[]float64` whose Go
nil is `none`. -/
structure Operation where
  SensorID : ℕ
  Action : String
  Bins : Option (List ℚ)
  Interval : ℕ
deriving DecidableEq, Repr

/-- `json.Marshal` of a `[]float64` field: the nil slice marshals as
JSON null. -/
def binsJson : Option (List ℚ) → Json
  | none => Json.null
  | some bs => Json.arr (bs.map Json.num)

/-- `json.Marshal` of one `*Operation` (struct field order; every field
is emitted since none carries omitempty). -/
def marshalOperation (op : Operation) : Json :=
  Json.obj [("sensorId", Json.num op.SensorID),
    ("action", Json.str op.Action),
    ("bins", binsJson op.Bins),
    ("interval", Json.num op.Interval)]

/-- `Operations.Value`: `json.Marshal` of the slice. -/
def operationsValue (ops : List Operation) : Json :=
  Json.arr (ops.map marshalOperation)

/-- Object field lookup with Go semantics: for duplicate keys the last
value wins. -/
def lookupField (fields : List (String × Json)) (key : String) : Option Json :=
  (fields.reverse.find? fun f => decide (f.1 = key)).map Prod.snd

/-- Decode a `uint32` struct field: a missing field or JSON null leaves
the zero value; a number must be a non-negative integer below 2^32;
anything else is a type error. -/
def decodeUint32Field (fields : List (String × Json)) (key : String) :
    Except String ℕ :=
  match lookupField fields key with
  | none => Except.ok 0
  | some Json.null => Except.ok 0
  | some (Json.num q) =>
    if q.den = 1 ∧ 0 ≤ q.num ∧ q.num < 4294967296 then Except.ok q.num.toNat
    else Except.error "json: cannot unmarshal number"
  | some _ => Except.error "json: cannot unmarshal value into uint32"

/-- Decode a string struct field: missing or null leaves `""`. -/
def decodeStringField (fields : List (String × Json)) (key : String) :
    Except String String :=
  match lookupField fields key with
  | none => Except.ok ""
  | some Json.null => Except.ok ""
  | some (Json.str s) => Except.ok s
  | some _ => Except.error "json: cannot unmarshal value into string"

/-- Decode one element of a `[]float64` (JSON null leaves the zero
element). -/
def decodeFloatElem (j : Json) : Except String ℚ :=
  match j with
  | Json.null => Except.ok 0
  | Json.num q => Except.ok q
  | _ => Except.error "json: cannot unmarshal value into float64"

/-- Element-wise decoding of a JSON array into a `[]float64` (the first
failing element aborts, as json.Unmarshal does). -/
def decodeFloatList : List Json → Except String (List ℚ)
  | [] => Except.ok []
  | j :: rest => do
    let x ← decodeFloatElem j
    let xs ← decodeFloatList rest
    return x :: xs

/-- Decode a `[]float64` struct field: missing or null leaves the nil
slice. -/
def decodeBinsField (fields : List (String × Json)) (key : String) :
    Except String (Option (List ℚ)) :=
  match lookupField fields key with
  | none => Except.ok none
  | some Json.null => Except.ok none
  | some (Json.arr xs) => do
    let bs ← decodeFloatList xs
    return some bs
  | some _ => Except.error "json: cannot unmarshal value into []float64"

/-- `json.Unmarshal` of one `*Operation` element (a JSON null element
would leave a nil pointer in the Go slice, which the `Operations` model
— a list of values — cannot represent; such bytes are never produced by
`Operations.Value`). -/
def unmarshalOperation (j : Json) : Except String Operation :=
  match j with
  | Json.obj fields => do
    let sensorID ← decodeUint32Field fields "sensorId"
    let action ← decodeStringField fields "action"
    let bins ← decodeBinsField fields "bins"
    let interval ← decodeUint32Field fields "interval"
    return ⟨sensorID, action, bins, interval⟩
  | _ => Except.error "json: cannot unmarshal value into Operation"

/-- Element-wise decoding of the operations array. -/
def unmarshalOperationList : List Json → Except String (List Operation)
  | [] => Except.ok []
  | j :: rest => do
    let op ← unmarshalOperation j
    let ops ← unmarshalOperationList rest
    return op :: ops

/-- `Operations.Scan` on the parsed bytes: `json.Unmarshal` into the
slice (JSON null leaves the nil slice, modelled as `[]`). -/
def operationsScan (j : Json) : Except String (List Operation) :=
  match j with
  | Json.null => Except.ok []
  | Json.arr xs => unmarshalOperationList xs
  | _ => Except.error "json: cannot unmarshal value into Operations"

/-! ## pkg/postgres/postgres.go — the stream registry (CreateStream at
lines 179-260, DeleteStream at lines 266-332)

The at-rest token encryption (`pgp_sym_encrypt` / `pgp_sym_decrypt` with
the service `encryption_password`) is modelled as a constructor pairing
the password with the plaintext; decryption succeeds exactly when the
password matches.  Every DB call runs in a transaction: on error the
transaction rolls back and the caller's state is unchanged, which the
model expresses by returning `Except.error` without a new state. -/

structure EncBytes where
  password : String
  plaintext : String
deriving DecidableEq, Repr

def pgpSymEncrypt (plain pw : String) : EncBytes := ⟨pw, plain⟩

def pgpSymDecrypt (e : EncBytes) (pw : String) : Option String :=
  if e.password = pw then some e.plaintext else none

/-- A row of the `devices` table. -/
structure DeviceRow where
  id : ℕ
  device_token : String
  longitude : ℚ
  latitude : ℚ
  exposure : String
  device_label : String
deriving DecidableEq, Repr

/-- A row of the `streams` table (the serial `id` column is unused by the
code paths in scope). -/
structure StreamRow where
  uuid : String
  device_id : ℕ
  community_id : String
  public_key : String
  token : EncBytes
  operations : List Operation
deriving DecidableEq, Repr

/-- The registry state: the two tables plus the serial sequence for
device ids. -/
structure DBState where
  devices : List DeviceRow
  streams : List StreamRow
  nextDeviceID : ℕ
deriving DecidableEq, Repr

def emptyDB : DBState := ⟨[], [], 1⟩

inductive DBErr
  | uniqueViolationStream
  | noRows
deriving DecidableEq, Repr

/-- The `postgres.Stream` (with its embedded `Device`) handed to
`DB.CreateStream`. -/
structure StreamInput where
  community_id : String
  public_key : String
  operations : List Operation
  device_token : String
  longitude : ℚ
  latitude : ℚ
  exposure : String
  device_label : String
deriving DecidableEq, Repr

/-- `DB.CreateStream`: upsert the device by `device_token` (ON CONFLICT
updates the mutable columns, RETURNING id), then insert the stream row
with the `pgp_sym_encrypt`-ed token; the unique index on
`(device_id, community_id)` raises `23505`, which the code turns into the
"device already registered within community" error; the deferred
rollback leaves the state unchanged on error.  The generated stream UUID
and random token are parameters (`uuid.NewRandom`, `GenerateToken`);
UUID collisions are not modelled. -/
def dbCreateStream (db : DBState) (pw : String) (inp : StreamInput)
    (newUUID newToken : String) : Except DBErr (DBState × String × String) :=
  let existing := db.devices.find? fun d => decide (d.device_token = inp.device_token)
  let deviceID := match existing with
    | some d => d.id
    | none => db.nextDeviceID
  let devices := match existing with
    | some d => db.devices.map fun e =>
      if e.id = d.id then
        ⟨e.id, e.device_token, inp.longitude, inp.latitude, inp.exposure,
          inp.device_label⟩
      else e
    | none => db.devices ++
        [⟨db.nextDeviceID, inp.device_token, inp.longitude, inp.latitude,
          inp.exposure, inp.device_label⟩]
  if db.streams.any fun s =>
      decide (s.device_id = deviceID) && decide (s.community_id = inp.community_id) then
    Except.error DBErr.uniqueViolationStream
  else
    Except.ok (⟨devices,
      db.streams ++ [⟨newUUID, deviceID, inp.community_id, inp.public_key,
        pgpSymEncrypt newToken pw, inp.operations⟩],
      match existing with
      | some _ => db.nextDeviceID
      | none => db.nextDeviceID + 1⟩,
    newUUID, newToken)

/-- `DB.DeleteStream`: DELETE the stream row whose uuid matches and whose
stored token decrypts to the presented token, RETURNING device_id
(`sql.ErrNoRows` via `tx.Get` when nothing matched); count the remaining
streams of that device; when zero, DELETE the device row and return its
`device_token`, else return nothing.  Errors roll the transaction
back. -/
def dbDeleteStream (db : DBState) (pw : String) (streamID tok : String) :
    Except DBErr (DBState × Option String) :=
  let hits := db.streams.filter fun s =>
    decide (s.uuid = streamID) && decide (pgpSymDecrypt s.token pw = some tok)
  match hits with
  | [] => Except.error DBErr.noRows
  | hit :: _ =>
    let streams := db.streams.filter fun s =>
      !(decide (s.uuid = streamID) && decide (pgpSymDecrypt s.token pw = some tok))
    let remaining := (streams.filter fun s => decide (s.device_id = hit.device_id)).length
    if remaining = 0 then
      match db.devices.find? fun d => decide (d.id = hit.device_id) with
      | none => Except.error DBErr.noRows
      | some dev =>
        Except.ok (⟨db.devices.filter fun d => !(decide (d.id = hit.device_id)),
          streams, db.nextDeviceID⟩, some dev.device_token)
    else
      Except.ok (⟨db.devices, streams, db.nextDeviceID⟩, none)

/-! ## pkg/rpc/encoder.go — the RPC control surface (CreateStream at
lines 109-141, DeleteStream at lines 146-174)

This version of encoder.go names the community field `PolicyId`; the
postgres layer it pairs with (and the spec) call it `community_id`, which
is the name used here.  `strings.ToLower` of the exposure enum is treated
as already applied to the request field.  Both handlers wrap every
registry error with `twirp.InternalErrorWith`, i.e. the twirp code
`internal`. -/

inductive TwirpCode
  | invalidArgument
  | notFound
  | alreadyExists
  | internal
  | unavailable
deriving DecidableEq, Repr

structure RpcError where
  code : TwirpCode
  msg : String
deriving DecidableEq, Repr

structure LocationReq where
  longitude : ℚ
  latitude : ℚ
deriving DecidableEq, Repr

inductive OperationAction
  | SHARE
  | BIN
  | MOVING_AVG
deriving DecidableEq, Repr

structure OperationReq where
  sensorId : ℕ
  action : OperationAction
  bins : List ℚ
  interval : ℕ
deriving DecidableEq, Repr

structure CreateStreamRequest where
  deviceToken : String
  communityId : String
  recipientPublicKey : String
  location : Option LocationReq
  exposure : String
  deviceLabel : String
  operations : List OperationReq
deriving DecidableEq, Repr

/-- `validateCreateRequest` (first failure wins, in source order;
`twirp.RequiredArgumentError` and `twirp.InvalidArgumentError` both carry
the `invalid_argument` code). -/
def validateCreateRequest (req : CreateStreamRequest) : Option RpcError :=
  if req.deviceToken = "" then
    some ⟨TwirpCode.invalidArgument, "device_token is required"⟩
  else if req.communityId = "" then
    some ⟨TwirpCode.invalidArgument, "policy_id is required"⟩
  else if req.recipientPublicKey = "" then
    some ⟨TwirpCode.invalidArgument, "recipient_public_key is required"⟩
  else
    match req.location with
    | none => some ⟨TwirpCode.invalidArgument, "location is required"⟩
    | some loc =>
      if loc.longitude = 0 then
        some ⟨TwirpCode.invalidArgument, "longitude is required"⟩
      else if loc.longitude < -180 ∨ loc.longitude > 180 then
        some ⟨TwirpCode.invalidArgument, "longitude must be between -180 and 180"⟩
      else if loc.latitude = 0 then
        some ⟨TwirpCode.invalidArgument, "latitude is required"⟩
      else if loc.latitude < -90 ∨ loc.latitude > 90 then
        some ⟨TwirpCode.invalidArgument, "latitude must be between -90 and 90"⟩
      else none

/-- `createOperation`: per-operation validation and conversion to the
postgres `Operation` (zero values for the absent fields of each
variant). -/
def createOperation (op : OperationReq) : Except RpcError Operation :=
  if op.sensorId = 0 then
    Except.error ⟨TwirpCode.invalidArgument, "operations require a non-zero sensor id"⟩
  else
    match op.action with
    | OperationAction.SHARE => Except.ok ⟨op.sensorId, "SHARE", none, 0⟩
    | OperationAction.BIN =>
      if op.bins = [] then
        Except.error ⟨TwirpCode.invalidArgument,
          "binning requires a non-empty list of bins"⟩
      else Except.ok ⟨op.sensorId, "BIN", some op.bins, 0⟩
    | OperationAction.MOVING_AVG =>
      if op.interval = 0 then
        Except.error ⟨TwirpCode.invalidArgument,
          "moving average requires a non-zero interval"⟩
      else Except.ok ⟨op.sensorId, "MOVING_AVG", none, op.interval⟩

/-- `createStream` (the request → `postgres.Stream` helper): convert each
operation, then assemble the stream with its embedded device.  Called
only after validation, so a missing location never reaches the field
reads (the model defaults it). -/
def createOperations : List OperationReq → Except RpcError (List Operation)
  | [] => Except.ok []
  | o :: rest => do
    let op ← createOperation o
    let ops ← createOperations rest
    return op :: ops

def createStreamInputOf (req : CreateStreamRequest) : Except RpcError StreamInput := do
  let ops ← createOperations req.operations
  let loc := req.location.getD ⟨0, 0⟩
  return ⟨req.communityId, req.recipientPublicKey, ops, req.deviceToken,
    loc.longitude, loc.latitude, req.exposure, req.deviceLabel⟩

/-- `encoderImpl.CreateStream`: validate, convert, `db.CreateStream`
(every registry error becomes twirp `internal`), then
`mqtt.Subscribe(brokerAddr, req.DeviceToken, …)` — a subscribe failure
also returns `internal` but the committed registry write is kept. -/
def rpcCreateStream (db : DBState) (mq : MqttState) (pw brokerAddr : String)
    (req : CreateStreamRequest) (newUUID newToken : String) (subscribeOk : Bool) :
    DBState × MqttState × Except RpcError (String × String) :=
  match validateCreateRequest req with
  | some e => (db, mq, Except.error e)
  | none =>
    match createStreamInputOf req with
    | Except.error e => (db, mq, Except.error e)
    | Except.ok inp =>
      match dbCreateStream db pw inp newUUID newToken with
      | Except.error _ =>
        (db, mq, Except.error ⟨TwirpCode.internal,
          "failed to create stream: device already registered within community"⟩)
      | Except.ok (db2, uid, tok) =>
        if subscribeOk then
          (db2, (mqttSubscribe mq brokerAddr req.deviceToken).1,
            Except.ok (uid, tok))
        else
          (db2, mq, Except.error ⟨TwirpCode.internal, "failed to subscribe"⟩)

/-- `validateDeleteRequest`. -/
def validateDeleteRequest (streamUid tok : String) : Option RpcError :=
  if streamUid = "" then some ⟨TwirpCode.invalidArgument, "stream_uid is required"⟩
  else if tok = "" then some ⟨TwirpCode.invalidArgument, "token is required"⟩
  else none

/-- `encoderImpl.DeleteStream`: validate, `db.DeleteStream` (every
registry error — including `sql.ErrNoRows` for a missing stream or a
token mismatch — becomes twirp `internal` with the wrapped message), and
when the device row was deleted, `mqtt.Unsubscribe`. -/
def rpcDeleteStream (db : DBState) (mq : MqttState) (pw brokerAddr : String)
    (streamUid tok : String) : DBState × MqttState × Except RpcError Unit :=
  match validateDeleteRequest streamUid tok with
  | some e => (db, mq, Except.error e)
  | none =>
    match dbDeleteStream db pw streamUid tok with
    | Except.error _ =>
      (db, mq, Except.error ⟨TwirpCode.internal,
        "failed to delete stream: sql: no rows in result set"⟩)
    | Except.ok (db2, odev) =>
      match odev with
      | some devTok => (db2, mqttUnsubscribe mq brokerAddr devTok, Except.ok ())
      | none => (db2, mq, Except.ok ())

/-- One `CreateStream` RPC call with its server-generated randomness and
the outcome of the MQTT subscribe. -/
structure CreateCall where
  req : CreateStreamRequest
  uuid : String
  token : String
  subscribeOk : Bool
deriving DecidableEq, Repr

/-- A sequence of `CreateStream` calls against an initially empty
registry. -/
def runCreates (pw brokerAddr : String) (calls : List CreateCall) :
    DBState × MqttState :=
  calls.foldl (fun st c =>
    let r := rpcCreateStream st.1 st.2 pw brokerAddr c.req c.uuid c.token c.subscribeOk
    (r.1, r.2.1)) (emptyDB, emptyMqtt)

/-- The registry invariants maintained by `CreateStream`: device ids are
below the serial counter and pairwise distinct, device tokens are
pairwise distinct, and the `(device_id, community_id)` unique index
holds. -/
def DBInv (db : DBState) : Prop :=
  (∀ d ∈ db.devices, d.id < db.nextDeviceID) ∧
  db.devices.Pairwise (fun a b => a.id ≠ b.id ∧ a.device_token ≠ b.device_token) ∧
  db.streams.Pairwise (fun a b =>
    ¬(a.device_id = b.device_id ∧ a.community_id = b.community_id))

/-- The streams registered for a `(device_token, community_id)` pair. -/
def streamsForPair (db : DBState) (tok community : String) : List StreamRow :=
  db.streams.filter fun s =>
    decide (s.community_id = community) &&
      db.devices.any fun d =>
        decide (d.id = s.device_id) && decide (d.device_token = tok)

/-- Example registry used by concrete counterexamples/witnesses: one
device with one stream whose delete token is `"tok"`, encrypted under
password `"pw"`. -/
def sampleDB : DBState :=
  ⟨[⟨1, "abc123", 1, 2, "indoor", ""⟩],
    [⟨"uuid-1", 1, "c1", "PK1", pgpSymEncrypt "tok" "pw", []⟩], 2⟩

/-- Example `CreateStream` request used by concrete
counterexamples/witnesses. -/
def sampleReq : CreateStreamRequest :=
  ⟨"abc123", "c1", "PK1", some ⟨1, 2⟩, "indoor", "", []⟩


lemma binIndexSpec_le_length (value : ℚ) (bins : List ℚ) :
    binIndexSpec value bins ≤ bins.length := by
  induction bins with
  | nil => simp [binIndexSpec]
  | cons b rest ih =>
    simp only [binIndexSpec, List.length_cons]
    split
    · omega
    · omega

lemma binIndexSpec_not_lt (value : ℚ) (bins : List ℚ) (j : ℕ)
    (hlt : j < binIndexSpec value bins) (bj : ℚ) (hget : bins[j]? = some bj) :
    bj ≤ value := by
  induction bins generalizing j with
  | nil => simp at hget
  | cons b rest ih =>
    simp only [binIndexSpec] at hlt
    by_cases hb : value < b
    · simp [hb] at hlt
    · rw [if_neg hb] at hlt
      cases j with
      | zero =>
        simp only [List.getElem?_cons_zero, Option.some_inj] at hget
        subst hget
        exact le_of_not_lt hb
      | succ j =>
        rw [List.getElem?_cons_succ] at hget
        exact ih j (by omega) hget

lemma binIndexSpec_lt (value : ℚ) (bins : List ℚ) (bk : ℚ)
    (hget : bins[binIndexSpec value bins]? = some bk) :
    value < bk := by
  induction bins with
  | nil => simp [binIndexSpec] at hget
  | cons b rest ih =>
    by_cases hb : value < b
    · simp only [binIndexSpec, if_pos hb, List.getElem?_cons_zero,
        Option.some_inj] at hget
      subst hget
      exact hb
    · simp only [binIndexSpec, if_neg hb, List.getElem?_cons_succ] at hget
      exact ih hget

/-- The scan loop computes exactly the spec index, provided every bin
boundary before the start index is already known to be `≤ value` (which
is the loop invariant of the Go code). -/
lemma binSearchFrom_eq_spec (value : ℚ) (bins : List ℚ) (i : ℕ)
    (hi : i ≤ bins.length)
    (hprev : ∀ (j : ℕ) (hj : j < bins.length), j < i → bins[j] ≤ value) :
    (match binSearchFrom value bins i with
      | some k => k
      | none => bins.length) = i + binIndexSpec value (bins.drop i) := by
  by_cases h : i < bins.length
  · rw [binSearchFrom]
    rw [dif_pos h]
    have hdrop : bins.drop i = bins[i] :: bins.drop (i + 1) :=
      List.drop_eq_getElem_cons h
    by_cases hv : value < bins[i]
    · have hcond : (if i = 0 then value < bins[i]
          else value < bins[i] ∧ bins[i - 1] ≤ value) := by
        by_cases hz : i = 0
        · simpa [hz] using hv
        · rw [if_neg hz]
          exact ⟨hv, hprev (i - 1) (by omega) (by omega)⟩
      rw [if_pos hcond]
      rw [hdrop]
      simp [binIndexSpec, hv]
    · have hcond : ¬ (if i = 0 then value < bins[i]
          else value < bins[i] ∧ bins[i - 1] ≤ value) := by
        by_cases hz : i = 0
        · simpa [hz] using hv
        · rw [if_neg hz]
          intro hand
          exact hv hand.1
      rw [if_neg hcond]
      have hrec := binSearchFrom_eq_spec value bins (i + 1) (by omega)
        (by
          intro j hj hji
          by_cases hji' : j < i
          · exact hprev j hj hji'
          · have hj_eq : j = i := by omega
            subst hj_eq
            exact le_of_not_lt hv)
      rw [hrec, hdrop]
      simp only [binIndexSpec]
      rw [if_neg hv]
      omega
  · have hlen : i = bins.length := by omega
    rw [binSearchFrom]
    rw [dif_neg h]
    subst hlen
    simp [binIndexSpec]
termination_by bins.length - i

/-- The set-one-slot result of the Go code is the spec one-hot vector. -/
lemma replicate_set_eq_oneHot (n k : ℕ) (hk : k < n) :
    (List.replicate n (0 : Int)).set k 1 = oneHot n k := by
  apply List.ext_getElem
  · simp [oneHot]
  · intro j h1 h2
    simp only [List.length_set, List.length_replicate] at h1
    rw [List.getElem_set]
    simp only [oneHot, List.getElem_map, List.getElem_range]
    by_cases hjk : k = j
    · simp [hjk]
    · rw [if_neg hjk, if_neg (fun hh => hjk hh.symm)]
      simp

lemma BinValue_eq_oneHot (value : ℚ) (bins : List ℚ) :
    BinValue value bins = oneHot (bins.length + 1) (binIndexSpec value bins) := by
  have hmain := binSearchFrom_eq_spec value bins 0 (Nat.zero_le _) (by omega)
  simp only [List.drop_zero, Nat.zero_add] at hmain
  unfold BinValue
  cases hbs : binSearchFrom value bins 0 with
  | some i =>
    rw [hbs] at hmain
    simp only at hmain
    subst hmain
    exact replicate_set_eq_oneHot _ _
      (by have := binIndexSpec_le_length value bins; omega)
  | none =>
    rw [hbs] at hmain
    simp only at hmain
    rw [hmain]
    exact replicate_set_eq_oneHot _ _ (by omega)

/-- Claim C2: for every value `v` and non-empty ascending bins list of
length `k`, `BinValue v bins` is a vector of length `k+1` with a single
`1` (and `0` elsewhere) at the smallest index `i` with `v < bins[i]`
(or at the last index `k` when no such `i` exists); a value exactly equal
to a boundary `bins[i]` falls into the upper bin, i.e. the `1` lands at
index `i+1`. -/
theorem binvalue_one_hot_at_first_upper_bound (value : ℚ) (bins : List ℚ)
    (hne : bins ≠ []) (hsort : bins.Chain' (· < ·)) :
    (BinValue value bins).length = bins.length + 1 ∧
    BinValue value bins = oneHot (bins.length + 1) (binIndexSpec value bins) ∧
    binIndexSpec value bins ≤ bins.length ∧
    (∀ (j : ℕ), j < binIndexSpec value bins →
      ∀ bj, bins[j]? = some bj → bj ≤ value) ∧
    (∀ bk, bins[binIndexSpec value bins]? = some bk → value < bk) ∧
    (∀ (i : ℕ) (hi : i < bins.length), value = bins[i] →
      binIndexSpec value bins = i + 1) := by
  refine ⟨?_, BinValue_eq_oneHot value bins, binIndexSpec_le_length value bins,
    ?_, ?_, ?_⟩
  · rw [BinValue_eq_oneHot]
    simp [oneHot]
  · intro j hj bj hget
    exact binIndexSpec_not_lt value bins j hj bj hget
  · intro bk hget
    exact binIndexSpec_lt value bins bk hget
  · intro i hi hveq
    have hpairwise : ∀ (a b : ℕ) (ha : a < bins.length) (hb : b < bins.length),
        a < b → bins[a] < bins[b] := by
      have hpw : bins.Pairwise (· < ·) := List.chain'_iff_pairwise.mp hsort
      intro a b ha hb hab
      exact List.pairwise_iff_getElem.mp hpw a b ha hb hab
    have hspec_le : binIndexSpec value bins ≤ bins.length :=
      binIndexSpec_le_length value bins
    by_cases hlow : binIndexSpec value bins ≤ i
    · exfalso
      have hk : binIndexSpec value bins < bins.length := by omega
      have hvlt : value < bins[binIndexSpec value bins] :=
        binIndexSpec_lt value bins _ (List.getElem?_eq_getElem hk)
      by_cases heq : binIndexSpec value bins = i
      · have hsame : bins[binIndexSpec value bins] = bins[i] := by
          congr 1
        rw [hsame, ← hveq] at hvlt
        exact lt_irrefl _ hvlt
      · have hklt : binIndexSpec value bins < i := by omega
        have hmono : bins[binIndexSpec value bins] < bins[i] :=
          hpairwise _ _ hk hi hklt
        rw [← hveq] at hmono
        exact lt_irrefl _ (lt_trans hvlt hmono)
    · by_cases hcase : binIndexSpec value bins = i + 1
      · exact hcase
      · exfalso
        have hk : i + 1 < binIndexSpec value bins := by omega
        have hj : i + 1 < bins.length := by omega
        have hle : bins[i + 1] ≤ value :=
          binIndexSpec_not_lt value bins (i + 1) hk _ (List.getElem?_eq_getElem hj)
        have hmono : bins[i] < bins[i + 1] := hpairwise _ _ hi hj (by omega)
        rw [← hveq] at hmono
        exact lt_irrefl _ (lt_of_lt_of_le hmono hle)

/-- Witness for C2: `BinValue 79.35 [30, 80, 120] = [0, 1, 0, 0]` (the
scenario S3 value), with the bins non-empty and ascending. -/
theorem binvalue_one_hot_at_first_upper_bound_witness :
    ([30, 80, 120] : List ℚ) ≠ [] ∧
    (BinValue (79.35 : ℚ) [30, 80, 120]).length = 3 + 1 ∧
    BinValue (79.35 : ℚ) [30, 80, 120] = oneHot 4 (binIndexSpec 79.35 [30, 80, 120]) := by
  have h := binvalue_one_hot_at_first_upper_bound (79.35 : ℚ) [30, 80, 120]
    (by decide) (by norm_num)
  exact ⟨by decide, h.1, h.2.1⟩

/-- The timestamps of a strictly increasing call sequence are all below
the trailing call. -/
lemma pairwise_lt_last (cs : List MACall) (c : MACall)
    (hsort : (cs ++ [c]).Pairwise fun a b => a.t < b.t) :
    ∀ d ∈ cs, d.t < c.t := by
  intro d hd
  have h := (List.pairwise_append.mp hsort).2.2
  exact h d hd c (List.mem_singleton_self c)

lemma pairwise_prefix (cs : List MACall) (c : MACall)
    (hsort : (cs ++ [c]).Pairwise fun a b => a.t < b.t) :
    cs.Pairwise fun a b => a.t < b.t :=
  (List.pairwise_append.mp hsort).1

lemma filter_singleton_keep {α : Type} (p : α → Bool) (a : α) (h : p a = true) :
    [a].filter p = [a] := by
  rw [List.filter_eq_self]
  intro x hx
  rw [List.mem_singleton] at hx
  subst hx
  exact h

lemma filter_singleton_drop {α : Type} (p : α → Bool) (a : α) (h : p a = false) :
    [a].filter p = [] := by
  rw [List.filter_eq_nil]
  intro x hx
  rw [List.mem_singleton] at hx
  subst hx
  simp [h]

/-- Invariant of the in-memory store: after the calls `cs ++ [c]` the
slot holds exactly the calls whose timestamp survived the eviction at
the final call time, in call order. -/
lemma memStateAfter_inv (interval : ℕ) (cs : List MACall) (c : MACall)
    (hsort : (cs ++ [c]).Pairwise fun a b => a.t < b.t) :
    memStateAfter interval (cs ++ [c]) =
      some (((cs ++ [c]).filter fun d =>
          !(decide (d.t < c.t - (interval : Int)))).map fun d => ⟨d.t, d.v⟩) := by
  induction cs using List.reverseRecOn generalizing c with
  | nil =>
    have hfs : (List.filter (fun d => !(decide (d.t < c.t - (interval : Int)))) [c]) = [c] :=
      filter_singleton_keep _ c
        (by simpa using (by omega : ¬ (c.t < c.t - (interval : Int))))
    simp only [List.nil_append, memStateAfter, List.foldl_cons, List.foldl_nil]
    rw [hfs]
    rfl
  | append_singleton cs' b ih =>
    have hb_lt : b.t < c.t := by
      have hall := pairwise_lt_last (cs' ++ [b]) c hsort
      exact hall b (by simp)
    have hprefix : (cs' ++ [b]).Pairwise (fun a b => a.t < b.t) :=
      pairwise_prefix _ c hsort
    have hstep : memStateAfter interval ((cs' ++ [b]) ++ [c]) =
        some (movingAverage (memStateAfter interval (cs' ++ [b])) c.v c.t interval).1 := by
      simp [memStateAfter, List.foldl_append]
    rw [hstep, ih b hprefix]
    simp only [movingAverage]
    congr 1
    rw [List.filter_map]
    have hcomp : ((cs' ++ [b]).filter fun d =>
        !(decide (d.t < b.t - (interval : Int)))).filter
          (fun d => !(decide (d.t < c.t - (interval : Int)))) =
        (cs' ++ [b]).filter fun d => !(decide (d.t < c.t - (interval : Int))) := by
      rw [List.filter_filter]
      apply List.filter_congr
      intro d hd
      by_cases hdc : d.t < c.t - (interval : Int)
      · simp [hdc]
      · have hdb : ¬ d.t < b.t - (interval : Int) := by omega
        simp [hdc, hdb]
    have hfil_c : (List.filter (fun d => !(decide (d.t < c.t - (interval : Int)))) [c]) = [c] :=
      filter_singleton_keep _ c
        (by simpa using (by omega : ¬ (c.t < c.t - (interval : Int))))
    have hfc : ((cs' ++ [b]) ++ [c]).filter
        (fun d => !(decide (d.t < c.t - (interval : Int)))) =
        ((cs' ++ [b]).filter fun d => !(decide (d.t < c.t - (interval : Int)))) ++ [c] := by
      rw [List.filter_append, hfil_c]
    rw [hfc, List.map_append]
    have hfun : (fun (e : MAEntry) => !(decide (e.Timestamp < c.t - (interval : Int)))) ∘
        (fun (d : MACall) => (⟨d.t, d.v⟩ : MAEntry)) =
        fun d => !(decide (d.t < c.t - (interval : Int))) := rfl
    rw [hfun, hcomp]
    rfl

/-- Invariant of the Redis sorted set: after the calls `cs ++ [c]` the
set holds exactly the calls whose timestamp is strictly above the
eviction cutoff of the final call (Redis removal is inclusive). -/
lemma redisStateAfter_inv (interval : ℕ) (cs : List MACall) (c : MACall)
    (hsort : (cs ++ [c]).Pairwise fun a b => a.t < b.t) :
    redisStateAfter interval (cs ++ [c]) =
      ((cs ++ [c]).filter fun d =>
          !(decide (d.t ≤ c.t - (interval : Int)))).map fun d => (d.v, d.t) := by
  induction cs using List.reverseRecOn generalizing c with
  | nil =>
    have hz : zadd [] ((c.v, c.t) : ℚ × Int) = [(c.v, c.t)] := by
      simp [zadd]
    simp only [List.nil_append, redisStateAfter, List.foldl_cons, List.foldl_nil]
    simp only [redisMovingAverage, hz]
    by_cases hI : c.t ≤ c.t - (interval : Int)
    · have h1 : (List.filter (fun m : ℚ × Int =>
          !(decide (m.2 ≤ c.t - (interval : Int)))) [(c.v, c.t)]) = [] :=
        filter_singleton_drop _ _ (by simpa using hI)
      have h2 : (List.filter (fun d : MACall =>
          !(decide (d.t ≤ c.t - (interval : Int)))) [c]) = [] :=
        filter_singleton_drop _ c (by simpa using hI)
      rw [h1, h2]
      rfl
    · have h1 : (List.filter (fun m : ℚ × Int =>
          !(decide (m.2 ≤ c.t - (interval : Int)))) [(c.v, c.t)]) = [(c.v, c.t)] :=
        filter_singleton_keep _ _ (by simpa using hI)
      have h2 : (List.filter (fun d : MACall =>
          !(decide (d.t ≤ c.t - (interval : Int)))) [c]) = [c] :=
        filter_singleton_keep _ c (by simpa using hI)
      rw [h1, h2]
      rfl
  | append_singleton cs' b ih =>
    have hb_lt : b.t < c.t := by
      have hall := pairwise_lt_last (cs' ++ [b]) c hsort
      exact hall b (by simp)
    have hprefix : (cs' ++ [b]).Pairwise (fun a b => a.t < b.t) :=
      pairwise_prefix _ c hsort
    have hall_lt : ∀ d ∈ cs' ++ [b], d.t < c.t := pairwise_lt_last _ c hsort
    have hstep : redisStateAfter interval ((cs' ++ [b]) ++ [c]) =
        (redisMovingAverage (redisStateAfter interval (cs' ++ [b])) c.v c.t interval).1 := by
      simp [redisStateAfter, List.foldl_append]
    rw [hstep, ih b hprefix]
    simp only [redisMovingAverage]
    have hnotmem : ((c.v, c.t) : ℚ × Int) ∉
        ((cs' ++ [b]).filter fun d => !(decide (d.t ≤ b.t - (interval : Int)))).map
          (fun d => (d.v, d.t)) := by
      intro hmem
      rcases List.mem_map.mp hmem with ⟨d, hd, hde⟩
      have hd' : d ∈ cs' ++ [b] := List.mem_of_mem_filter hd
      have hteq : d.t = c.t := congrArg Prod.snd hde
      have hlt := hall_lt d hd'
      omega
    simp only [zadd, if_neg hnotmem]
    rw [List.filter_append, List.filter_map]
    have hcomp : ((cs' ++ [b]).filter fun d =>
        !(decide (d.t ≤ b.t - (interval : Int)))).filter
          (fun d => !(decide (d.t ≤ c.t - (interval : Int)))) =
        (cs' ++ [b]).filter fun d => !(decide (d.t ≤ c.t - (interval : Int))) := by
      rw [List.filter_filter]
      apply List.filter_congr
      intro d hd
      by_cases hdc : d.t ≤ c.t - (interval : Int)
      · simp [hdc]
      · have hdb : ¬ d.t ≤ b.t - (interval : Int) := by omega
        simp [hdc, hdb]
    have hfun : (fun (m : ℚ × Int) => !(decide (m.2 ≤ c.t - (interval : Int)))) ∘
        (fun (d : MACall) => ((d.v, d.t) : ℚ × Int)) =
        fun d => !(decide (d.t ≤ c.t - (interval : Int))) := rfl
    rw [hfun, hcomp]
    have hfc2 : ((cs' ++ [b]) ++ [c]).filter
        (fun d => !(decide (d.t ≤ c.t - (interval : Int)))) =
        ((cs' ++ [b]).filter fun d => !(decide (d.t ≤ c.t - (interval : Int)))) ++
          [c].filter (fun d => !(decide (d.t ≤ c.t - (interval : Int)))) :=
      List.filter_append _ _
    rw [hfc2, List.map_append]
    congr 1
    by_cases hI : c.t ≤ c.t - (interval : Int)
    · have h1 : (List.filter (fun m : ℚ × Int =>
          !(decide (m.2 ≤ c.t - (interval : Int)))) [(c.v, c.t)]) = [] :=
        filter_singleton_drop _ _ (by simpa using hI)
      have h2 : (List.filter (fun d : MACall =>
          !(decide (d.t ≤ c.t - (interval : Int)))) [c]) = [] :=
        filter_singleton_drop _ c (by simpa using hI)
      rw [h1, h2]
      rfl
    · have h1 : (List.filter (fun m : ℚ × Int =>
          !(decide (m.2 ≤ c.t - (interval : Int)))) [(c.v, c.t)]) = [(c.v, c.t)] :=
        filter_singleton_keep _ _ (by simpa using hI)
      have h2 : (List.filter (fun d : MACall =>
          !(decide (d.t ≤ c.t - (interval : Int)))) [c]) = [c] :=
        filter_singleton_keep _ c (by simpa using hI)
      rw [h1, h2]
      rfl

/-- In front of a strictly later final call, re-filtering the retained
entries of the in-memory store by the new cutoff yields exactly the
two-sided window filter over the original calls. -/
lemma mem_filter_compose (interval : ℕ) (l : List MACall) (bt ct : Int)
    (hb : bt < ct) (hall : ∀ d ∈ l, d.t < ct) :
    (l.filter fun d => !(decide (d.t < bt - (interval : Int)))).filter
        (fun d => !(decide (d.t < ct - (interval : Int)))) =
      l.filter fun d => decide (ct - (interval : Int) ≤ d.t) && decide (d.t ≤ ct) := by
  rw [List.filter_filter]
  apply List.filter_congr
  intro d hd
  have hdct := hall d hd
  by_cases h1 : d.t < ct - (interval : Int)
  · have h2 : ¬ (ct - (interval : Int) ≤ d.t) := by omega
    simp [h1, h2]
  · have h2 : ct - (interval : Int) ≤ d.t := by omega
    have h3 : ¬ (d.t < bt - (interval : Int)) := by omega
    have h4 : d.t ≤ ct := by omega
    simp [h1, h2, h3, h4]

/-- The Redis inclusive range read over the retained members is exactly
the two-sided window filter over the original calls. -/
lemma redis_filter_compose (interval : ℕ) (l : List MACall) (bt ct : Int)
    (hb : bt < ct) (hall : ∀ d ∈ l, d.t < ct) :
    (l.filter fun d => !(decide (d.t ≤ bt - (interval : Int)))).filter
        (fun d => decide (ct - (interval : Int) ≤ d.t) && decide (d.t ≤ ct)) =
      l.filter fun d => decide (ct - (interval : Int) ≤ d.t) && decide (d.t ≤ ct) := by
  rw [List.filter_filter]
  apply List.filter_congr
  intro d hd
  have hdct := hall d hd
  by_cases h2 : ct - (interval : Int) ≤ d.t
  · have h3 : ¬ (d.t ≤ bt - (interval : Int)) := by omega
    have h4 : d.t ≤ ct := by omega
    simp [h2, h3, h4]
  · simp [h2]

/-- Claim C5: for every key and every sequence of MovingAverage calls at
strictly increasing clock times ending at `c.t`, the value returned by
the final call equals the arithmetic mean of the appended values whose
timestamps lie in the inclusive window `[c.t - interval, c.t]`, including
the final value itself — for both the in-memory implementation
(moving_averager.go) and the Redis implementation (redis.go). -/
theorem moving_average_returns_window_mean (interval : ℕ) (cs : List MACall)
    (c : MACall) (hsort : (cs ++ [c]).Pairwise fun a b => a.t < b.t) :
    memRun interval cs c =
      ((((cs ++ [c]).filter fun d =>
          decide (c.t - (interval : Int) ≤ d.t) && decide (d.t ≤ c.t)).map
            MACall.v).sum) /
        ((((cs ++ [c]).filter fun d =>
          decide (c.t - (interval : Int) ≤ d.t) && decide (d.t ≤ c.t)).length : ℚ)) ∧
    redisRun interval cs c =
      ((((cs ++ [c]).filter fun d =>
          decide (c.t - (interval : Int) ≤ d.t) && decide (d.t ≤ c.t)).map
            MACall.v).sum) /
        ((((cs ++ [c]).filter fun d =>
          decide (c.t - (interval : Int) ≤ d.t) && decide (d.t ≤ c.t)).length : ℚ)) := by
  have hckeep : (decide (c.t - (interval : Int) ≤ c.t) && decide (c.t ≤ c.t)) = true := by
    have h1 : c.t - (interval : Int) ≤ c.t := by omega
    simp [h1]
  have hwc : (List.filter (fun d =>
      decide (c.t - (interval : Int) ≤ d.t) && decide (d.t ≤ c.t)) [c]) = [c] :=
    filter_singleton_keep _ c hckeep
  have hsplit : (cs ++ [c]).filter
      (fun d => decide (c.t - (interval : Int) ≤ d.t) && decide (d.t ≤ c.t)) =
      (cs.filter fun d =>
        decide (c.t - (interval : Int) ≤ d.t) && decide (d.t ≤ c.t)) ++ [c] := by
    rw [List.filter_append, hwc]
  rcases List.eq_nil_or_concat cs with rfl | ⟨cs', b, rfl⟩
  · rw [hsplit]
    constructor
    · simp only [memRun, memStateAfter, List.foldl_nil, movingAverage,
        List.filter_nil, List.nil_append]
      simp
    · have hz : zadd [] ((c.v, c.t) : ℚ × Int) = [(c.v, c.t)] := by
        simp [zadd]
      have hvals : (List.filter (fun m : ℚ × Int =>
          decide (c.t - (interval : Int) ≤ m.2) && decide (m.2 ≤ c.t)) [(c.v, c.t)]) =
          [(c.v, c.t)] :=
        filter_singleton_keep _ _ hckeep
      simp only [redisRun, redisStateAfter, List.foldl_nil, redisMovingAverage,
        hz, hvals, List.filter_nil, List.nil_append]
      simp [calculateAverage]
  · rw [List.concat_eq_append] at hsort hsplit ⊢
    have hb_lt : b.t < c.t := by
      have hall := pairwise_lt_last (cs' ++ [b]) c hsort
      exact hall b (by simp)
    have hprefix : (cs' ++ [b]).Pairwise (fun a b => a.t < b.t) :=
      pairwise_prefix _ c hsort
    have hall_lt : ∀ d ∈ cs' ++ [b], d.t < c.t := pairwise_lt_last _ c hsort
    rw [hsplit]
    constructor
    · -- in-memory implementation
      rw [memRun, memStateAfter_inv interval cs' b hprefix]
      simp only [movingAverage]
      rw [List.filter_map]
      have hfun : (fun (e : MAEntry) =>
          !(decide (e.Timestamp < c.t - (interval : Int)))) ∘
          (fun (d : MACall) => (⟨d.t, d.v⟩ : MAEntry)) =
          fun d => !(decide (d.t < c.t - (interval : Int))) := rfl
      rw [hfun]
      have hcomp := mem_filter_compose interval (cs' ++ [b]) b.t c.t hb_lt hall_lt
      rw [hcomp, List.map_map]
      have hvv : (MAEntry.Value ∘ fun (d : MACall) => (⟨d.t, d.v⟩ : MAEntry)) =
          MACall.v := rfl
      rw [hvv]
      simp only [List.map_append, List.sum_append, List.length_append,
        List.length_map, List.map_cons, List.map_nil, List.sum_cons,
        List.sum_nil, List.length_cons, List.length_nil]
      push_cast
      ring_nf
    · -- Redis implementation
      rw [redisRun, redisStateAfter_inv interval cs' b hprefix]
      simp only [redisMovingAverage]
      have hnotmem : ((c.v, c.t) : ℚ × Int) ∉
          ((cs' ++ [b]).filter fun d => !(decide (d.t ≤ b.t - (interval : Int)))).map
            (fun d => (d.v, d.t)) := by
        intro hmem
        rcases List.mem_map.mp hmem with ⟨d, hd, hde⟩
        have hd' : d ∈ cs' ++ [b] := List.mem_of_mem_filter hd
        have hteq : d.t = c.t := congrArg Prod.snd hde
        have hlt := hall_lt d hd'
        omega
      simp only [zadd, if_neg hnotmem]
      rw [List.filter_append, List.filter_map]
      have hfun : (fun (m : ℚ × Int) =>
          decide (c.t - (interval : Int) ≤ m.2) && decide (m.2 ≤ c.t)) ∘
          (fun (d : MACall) => ((d.v, d.t) : ℚ × Int)) =
          fun d => decide (c.t - (interval : Int) ≤ d.t) && decide (d.t ≤ c.t) := rfl
      rw [hfun]
      have hcomp := redis_filter_compose interval (cs' ++ [b]) b.t c.t hb_lt hall_lt
      rw [hcomp]
      have hvals : (List.filter (fun m : ℚ × Int =>
          decide (c.t - (interval : Int) ≤ m.2) && decide (m.2 ≤ c.t)) [(c.v, c.t)]) =
          [(c.v, c.t)] :=
        filter_singleton_keep _ _ hckeep
      rw [hvals]
      simp only [calculateAverage, List.length_append, List.length_map,
        List.length_cons, List.length_nil]
      rw [if_neg (by omega)]
      rw [List.map_append, List.map_map]
      have hvv : (Prod.fst ∘ fun (d : MACall) => ((d.v, d.t) : ℚ × Int)) =
          MACall.v := rfl
      rw [hvv]
      simp only [List.map_append, List.sum_append, List.map_cons, List.map_nil,
        List.sum_cons, List.sum_nil, List.length_append, List.length_map,
        List.length_cons, List.length_nil]

/-- Witness for C5: calls at times 10, 20, 30 with values 4, 8, 3 and
interval 15 — the window `[15, 30]` holds the values 8 and 3, with mean
11/2, and both implementations return it. -/
theorem moving_average_returns_window_mean_witness :
    (([⟨10, 4⟩, ⟨20, 8⟩] : List MACall) ++ [(⟨30, 3⟩ : MACall)]).Pairwise
        (fun a b => a.t < b.t) ∧
    memRun 15 ([⟨10, 4⟩, ⟨20, 8⟩] : List MACall) ⟨30, 3⟩ = (11 : ℚ) / 2 ∧
    redisRun 15 ([⟨10, 4⟩, ⟨20, 8⟩] : List MACall) ⟨30, 3⟩ = (11 : ℚ) / 2 := by
  have hsort : (([⟨10, 4⟩, ⟨20, 8⟩] : List MACall) ++ [(⟨30, 3⟩ : MACall)]).Pairwise
      (fun a b => a.t < b.t) := by decide
  have h := moving_average_returns_window_mean 15 ([⟨10, 4⟩, ⟨20, 8⟩] : List MACall) ⟨30, 3⟩ hsort
  refine ⟨hsort, ?_, ?_⟩
  · rw [h.1]
    norm_num [List.filter_cons, List.filter_nil]
  · rw [h.2]
    norm_num [List.filter_cons, List.filter_nil]

lemma mem_zadd (s : List (ℚ × Int)) (x m : ℚ × Int) :
    m ∈ zadd s x ↔ m ∈ s ∨ m = x := by
  unfold zadd
  by_cases hx : x ∈ s
  · rw [if_pos hx]
    constructor
    · exact fun h => Or.inl h
    · rintro (h | rfl)
      · exact h
      · exact hx
  · rw [if_neg hx]
    simp [List.mem_append]

/-- Claim C6 (amended): after every successful MovingAverage call the
store holds only samples with timestamps in `[now - interval, now]`, and
every sample strictly below `now - interval` is evicted — but the two
implementations differ at the lower boundary: the in-memory store
retains exactly the old samples with timestamp `≥ now - interval` (plus
the new sample), while the Redis store also evicts a sample with
timestamp exactly `now - interval` (its inclusive `ZRemRangeByScore`),
retaining exactly the old samples with timestamp strictly greater. -/
theorem moving_average_store_window (s : Option (List MAEntry))
    (rs : List (ℚ × Int)) (value : ℚ) (now : Int) (interval : ℕ)
    (hmem : ∀ e ∈ s.getD [], e.Timestamp ≤ now)
    (hrs : ∀ m ∈ rs, m.2 ≤ now) :
    (∀ e, e ∈ (movingAverage s value now interval).1 ↔
      ((e ∈ s.getD [] ∧ now - (interval : Int) ≤ e.Timestamp) ∨
        e = ⟨now, value⟩)) ∧
    (∀ e ∈ (movingAverage s value now interval).1,
      now - (interval : Int) ≤ e.Timestamp ∧ e.Timestamp ≤ now) ∧
    (∀ m, m ∈ (redisMovingAverage rs value now interval).1 ↔
      ((m ∈ rs ∧ now - (interval : Int) < m.2) ∨
        (m = (value, now) ∧ now - (interval : Int) < now))) ∧
    (∀ m ∈ (redisMovingAverage rs value now interval).1,
      now - (interval : Int) < m.2 ∧ m.2 ≤ now) := by
  have hpart1 : ∀ e, e ∈ (movingAverage s value now interval).1 ↔
      ((e ∈ s.getD [] ∧ now - (interval : Int) ≤ e.Timestamp) ∨
        e = ⟨now, value⟩) := by
    intro e
    cases s with
    | none => simp [movingAverage]
    | some entries =>
      simp only [movingAverage, Option.getD_some, List.mem_append,
        List.mem_filter, List.mem_singleton, Bool.not_eq_true',
        decide_eq_false_iff_not, not_lt]
  have hpart3 : ∀ m, m ∈ (redisMovingAverage rs value now interval).1 ↔
      ((m ∈ rs ∧ now - (interval : Int) < m.2) ∨
        (m = (value, now) ∧ now - (interval : Int) < now)) := by
    intro m
    simp only [redisMovingAverage, List.mem_filter, mem_zadd,
      Bool.not_eq_true', decide_eq_false_iff_not, not_le]
    constructor
    · rintro ⟨h1 | rfl, h2⟩
      · exact Or.inl ⟨h1, h2⟩
      · exact Or.inr ⟨rfl, h2⟩
    · rintro (⟨h1, h2⟩ | ⟨rfl, h2⟩)
      · exact ⟨Or.inl h1, h2⟩
      · exact ⟨Or.inr rfl, h2⟩
  refine ⟨hpart1, ?_, hpart3, ?_⟩
  · intro e he
    rcases (hpart1 e).mp he with ⟨h1, h2⟩ | rfl
    · exact ⟨h2, hmem e h1⟩
    · exact ⟨show now - (interval : Int) ≤ now by omega, le_rfl⟩
  · intro m hm
    rcases (hpart3 m).mp hm with ⟨h1, h2⟩ | ⟨rfl, h2⟩
    · exact ⟨h2, hrs m h1⟩
    · exact ⟨h2, le_rfl⟩

/-- Counterexample for C6 as stated: in the Redis implementation, running
the calls (t=100, v=5) then (t=400, v=7) with interval 300 puts the first
sample exactly on the boundary `now - interval = 100`; that sample is
read by the inclusive range query of the final call, yet is evicted from
the store rather than retained. -/
theorem moving_average_boundary_evicted_counterexample :
    redisStateAfter 300 [⟨100, 5⟩] = [((5 : ℚ), (100 : Int))] ∧
    ((400 : Int) - ((300 : ℕ) : Int) ≤ (100 : Int)) ∧
    (((5 : ℚ), (100 : Int)) ∈
      (zadd (redisStateAfter 300 [⟨100, 5⟩]) (7, 400)).filter fun m =>
        decide ((400 : Int) - ((300 : ℕ) : Int) ≤ m.2) &&
          decide (m.2 ≤ (400 : Int))) ∧
    ((5 : ℚ), (100 : Int)) ∉
      (redisMovingAverage (redisStateAfter 300 [⟨100, 5⟩]) 7 400 300).1 := by
  decide

/-- Witness for C6 (amended): one retained sample at timestamp 5, a call
at time 10 with interval 100 — the store afterwards sits inside the
window on both implementations. -/
theorem moving_average_store_window_witness :
    (∀ e ∈ (some [(⟨5, 2⟩ : MAEntry)]).getD [], e.Timestamp ≤ (10 : Int)) ∧
    (∀ m ∈ [((2 : ℚ), (5 : Int))], m.2 ≤ (10 : Int)) ∧
    (∀ e ∈ (movingAverage (some [(⟨5, 2⟩ : MAEntry)]) 3 10 100).1,
      (10 : Int) - ((100 : ℕ) : Int) ≤ e.Timestamp ∧ e.Timestamp ≤ 10) ∧
    (∀ m ∈ (redisMovingAverage [((2 : ℚ), (5 : Int))] 3 10 100).1,
      (10 : Int) - ((100 : ℕ) : Int) < m.2 ∧ m.2 ≤ 10) := by
  have h := moving_average_store_window (some [(⟨5, 2⟩ : MAEntry)])
    [((2 : ℚ), (5 : Int))] 3 10 100 (by decide) (by decide)
  exact ⟨by decide, by decide, h.2.1, h.2.2.2⟩

/-- Counterexample for C1 as stated: a device with two streams where the
first stream's datastore write fails — the second stream's own steps
would all succeed, yet it receives no datastore write, because `Process`
returns the error immediately. -/
theorem process_isolation_counterexample :
    2 ≤ ([StreamOutcome.writeFail, StreamOutcome.ok]).length ∧
    [StreamOutcome.writeFail, StreamOutcome.ok][1]? = some StreamOutcome.ok ∧
    1 ∉ (ProcessRun [StreamOutcome.writeFail, StreamOutcome.ok]).1 := by
  decide

lemma processFrom_spec (i : ℕ) (l : List StreamOutcome) :
    processFrom i l =
      ((List.range (l.takeWhile fun o => decide (o = StreamOutcome.ok)).length).map
          (· + i),
        l.all fun o => decide (o = StreamOutcome.ok)) := by
  induction l generalizing i with
  | nil => simp [processFrom]
  | cons o rest ih =>
    cases o with
    | ok =>
      simp only [processFrom, ih (i + 1)]
      rw [List.takeWhile_cons_of_pos (by simp)]
      simp only [List.length_cons, List.range_succ_eq_map, List.map_cons,
        List.map_map, List.all_cons, Prod.mk.injEq]
      refine ⟨?_, by simp⟩
      have hfg : ((fun x => x + i) ∘ Nat.succ) = (fun x => x + (i + 1)) :=
        funext fun j => by
          simp only [Function.comp_apply]
          omega
      rw [hfg, Nat.zero_add]
    | procFail =>
      rw [List.takeWhile_cons_of_neg (by simp)]
      simp [processFrom]
    | encFail =>
      rw [List.takeWhile_cons_of_neg (by simp)]
      simp [processFrom]
    | writeFail =>
      rw [List.takeWhile_cons_of_neg (by simp)]
      simp [processFrom]

/-- Claim C1 (amended): `Process` handles the streams of a device
sequentially and returns on the first failure, so exactly the streams in
the maximal all-successful prefix receive their datastore writes; a
stream after the first failing stream gets no write even when its own
steps would succeed, and `Process` returns nil iff every stream
succeeded. -/
theorem process_writes_equal_successful_prefix (streams : List StreamOutcome) :
    (ProcessRun streams).1 =
      List.range (streams.takeWhile fun o => decide (o = StreamOutcome.ok)).length ∧
    (ProcessRun streams).2 = (streams.all fun o => decide (o = StreamOutcome.ok)) := by
  have h := processFrom_spec 0 streams
  constructor
  · rw [ProcessRun, h]
    simp
  · rw [ProcessRun, h]

lemma oneHot_sum_zero (n k : ℕ) (hk : n ≤ k) : (oneHot n k).sum = 0 := by
  induction n with
  | zero => simp [oneHot]
  | succ n ih =>
    simp only [oneHot, List.range_succ, List.map_append, List.sum_append,
      List.map_cons, List.map_nil, List.sum_cons, List.sum_nil]
    have h1 : (oneHot n k).sum = 0 := ih (by omega)
    simp only [oneHot] at h1
    rw [h1, if_neg (by omega)]
    simp

lemma oneHot_sum_one (n k : ℕ) (hk : k < n) : (oneHot n k).sum = 1 := by
  induction n with
  | zero => omega
  | succ n ih =>
    simp only [oneHot, List.range_succ, List.map_append, List.sum_append,
      List.map_cons, List.map_nil, List.sum_cons, List.sum_nil]
    by_cases hkn : k < n
    · have h1 : (oneHot n k).sum = 1 := ih hkn
      simp only [oneHot] at h1
      rw [h1, if_neg (by omega)]
      simp
    · have hk_eq : k = n := by omega
      have h1 : (oneHot n k).sum = 0 := oneHot_sum_zero n k (by omega)
      simp only [oneHot] at h1
      rw [h1, if_pos hk_eq.symm]
      simp

/-- Counterexample for C7 as stated: a BIN operation over the ascending
bins `[30, 80, 120]` with a missing (null) sensor value emits
`[1, 0, 0, 0]` — the Go zero value 0 is binned — not the all-zero
vector. -/
theorem bin_missing_value_counterexample :
    binnedValuesEmitted none [30, 80, 120] = [1, 0, 0, 0] ∧
    binnedValuesEmitted none [30, 80, 120] ≠ List.replicate 4 (0 : Int) := by
  have h : binnedValuesEmitted none [30, 80, 120] =
      oneHot 4 (binIndexSpec 0 [30, 80, 120]) :=
    BinValue_eq_oneHot 0 [30, 80, 120]
  constructor
  · rw [h]
    decide
  · rw [h]
    decide

/-- Claim C7 (amended): for a BIN operation whose sensor value is missing
(null) in the payload, the value reaches `BinValue` as the Go zero value
`0`, so the emitted vector is the one-hot binning of 0 — it sums to 1
and is never the all-zero vector, for every non-empty bins list. -/
theorem bin_missing_value_one_hot (bins : List ℚ) (hne : bins ≠ []) :
    binnedValuesEmitted none bins =
      oneHot (bins.length + 1) (binIndexSpec 0 bins) ∧
    (binnedValuesEmitted none bins).sum = 1 ∧
    binnedValuesEmitted none bins ≠ List.replicate (bins.length + 1) (0 : Int) := by
  have h : binnedValuesEmitted none bins =
      oneHot (bins.length + 1) (binIndexSpec 0 bins) :=
    BinValue_eq_oneHot 0 bins
  have hsum : (binnedValuesEmitted none bins).sum = 1 := by
    rw [h]
    exact oneHot_sum_one _ _ (by
      have := binIndexSpec_le_length 0 bins
      omega)
  refine ⟨h, hsum, ?_⟩
  intro heq
  rw [heq] at hsum
  simp at hsum

/-- Witness for C7 (amended), at the bins `[30, 80, 120]`. -/
theorem bin_missing_value_one_hot_witness :
    ([30, 80, 120] : List ℚ) ≠ [] ∧
    (binnedValuesEmitted none [30, 80, 120]).sum = 1 ∧
    binnedValuesEmitted none [30, 80, 120] ≠ List.replicate 4 (0 : Int) := by
  have h := bin_missing_value_one_hot [30, 80, 120] (by decide)
  exact ⟨by decide, h.2.1, h.2.2⟩

/-- Claim C8: the code at a failing input.  For the topic `"foo/bar"`,
which does not match `device/sck/(\w+)/readings`, `handleCallback` logs
the extraction error but does not return: it still performs the registry
lookup — with the Go zero-value token `""` — and still invokes the
pipeline with the (nil) device.  The second conjunct checks the matching
behaviour on a well-formed topic. -/
theorem handle_callback_unmatched_topic_still_processes :
    extractToken "foo/bar" =
      Except.error "Unable to extract device token from: foo/bar" ∧
    extractToken "device/sck/abc123/readings" = Except.ok "abc123" ∧
    handleCallback (fun _ => false) "foo/bar" =
      [CallbackEvent.logExtractError, CallbackEvent.getDevice "",
        CallbackEvent.logGetDeviceError, CallbackEvent.processCalled false] ∧
    CallbackEvent.getDevice "" ∈ handleCallback (fun _ => false) "foo/bar" ∧
    CallbackEvent.processCalled false ∈ handleCallback (fun _ => false) "foo/bar" := by
  refine ⟨rfl, rfl, rfl, by decide, by decide⟩

/-- Counterexample for C9 as stated: from a state with broker `"b"`
connected and topic `"t"` subscribed, `Stop()` leaves the
topic-subscription map non-empty, and the subsequent `Subscribe` for the
same topic is skipped as already subscribed (no fresh subscription, state
unchanged) instead of establishing a fresh one. -/
theorem mqtt_stop_counterexample :
    (mqttStop ⟨["b"], ["t"]⟩).subscriptions ≠ [] ∧
    (mqttSubscribe (mqttStop ⟨["b"], ["t"]⟩) "b" "t").2 = false ∧
    (mqttSubscribe (mqttStop ⟨["b"], ["t"]⟩) "b" "t").1 = mqttStop ⟨["b"], ["t"]⟩ := by
  decide

/-- Claim C9 (amended): `Stop()` clears only the broker-client map; the
topic-subscription map is left as it was, so a subsequent `Subscribe` for
a topic subscribed before `Stop` is skipped as already subscribed — no
fresh broker subscription is established and the state does not
change. -/
theorem mqtt_stop_keeps_subscriptions (s : MqttState) (broker topic : String)
    (h : topic ∈ s.subscriptions) :
    (mqttStop s).clients = [] ∧
    (mqttStop s).subscriptions = s.subscriptions ∧
    mqttSubscribe (mqttStop s) broker topic = (mqttStop s, false) := by
  refine ⟨rfl, rfl, ?_⟩
  unfold mqttSubscribe
  rw [if_pos]
  exact h

/-- Witness for C9 (amended) at the state of the counterexample. -/
theorem mqtt_stop_keeps_subscriptions_witness :
    "t" ∈ (⟨["b"], ["t"]⟩ : MqttState).subscriptions ∧
    mqttSubscribe (mqttStop ⟨["b"], ["t"]⟩) "b" "t" = (mqttStop ⟨["b"], ["t"]⟩, false) := by
  have h := mqtt_stop_keeps_subscriptions ⟨["b"], ["t"]⟩ "b" "t" (by decide)
  exact ⟨by decide, h.2.2⟩

lemma decodeFloatList_map_num (bs : List ℚ) :
    decodeFloatList (bs.map Json.num) = Except.ok bs := by
  induction bs with
  | nil => rfl
  | cons b rest ih =>
    simp only [List.map_cons, decodeFloatList, decodeFloatElem, ih]
    rfl

lemma decodeBinsField_marshal (op : Operation) :
    decodeBinsField [("sensorId", Json.num (op.SensorID : ℚ)),
      ("action", Json.str op.Action),
      ("bins", binsJson op.Bins),
      ("interval", Json.num (op.Interval : ℚ))] "bins" = Except.ok op.Bins := by
  have hlook : lookupField [("sensorId", Json.num (op.SensorID : ℚ)),
      ("action", Json.str op.Action),
      ("bins", binsJson op.Bins),
      ("interval", Json.num (op.Interval : ℚ))] "bins" = some (binsJson op.Bins) := rfl
  rw [decodeBinsField, hlook]
  cases hb : op.Bins with
  | none => rfl
  | some bs =>
    simp only [binsJson, decodeFloatList_map_num]
    rfl

lemma decodeUint32Field_num (fields : List (String × Json)) (key : String)
    (n : ℕ) (hn : n < 4294967296)
    (hlook : lookupField fields key = some (Json.num (n : ℚ))) :
    decodeUint32Field fields key = Except.ok n := by
  rw [decodeUint32Field, hlook]
  have hcond : ((n : ℚ)).den = 1 ∧ 0 ≤ ((n : ℚ)).num ∧ ((n : ℚ)).num < 4294967296 := by
    refine ⟨Rat.den_natCast n, ?_, ?_⟩
    · rw [Rat.num_natCast]
      exact Int.natCast_nonneg n
    · rw [Rat.num_natCast]
      exact_mod_cast hn
  show (if ((n : ℚ)).den = 1 ∧ 0 ≤ ((n : ℚ)).num ∧ ((n : ℚ)).num < 4294967296 then
      Except.ok ((n : ℚ)).num.toNat
    else Except.error "json: cannot unmarshal number") = Except.ok n
  rw [if_pos hcond, Rat.num_natCast, Int.toNat_natCast]

/-- Round trip of one operation through its JSON encoding. -/
lemma unmarshalOperation_marshal (op : Operation)
    (hs : op.SensorID < 4294967296) (hi : op.Interval < 4294967296) :
    unmarshalOperation (marshalOperation op) = Except.ok op := by
  have hsens : decodeUint32Field [("sensorId", Json.num (op.SensorID : ℚ)),
      ("action", Json.str op.Action),
      ("bins", binsJson op.Bins),
      ("interval", Json.num (op.Interval : ℚ))] "sensorId" = Except.ok op.SensorID :=
    decodeUint32Field_num _ _ _ hs rfl
  have hint : decodeUint32Field [("sensorId", Json.num (op.SensorID : ℚ)),
      ("action", Json.str op.Action),
      ("bins", binsJson op.Bins),
      ("interval", Json.num (op.Interval : ℚ))] "interval" = Except.ok op.Interval :=
    decodeUint32Field_num _ _ _ hi rfl
  have hact : decodeStringField [("sensorId", Json.num (op.SensorID : ℚ)),
      ("action", Json.str op.Action),
      ("bins", binsJson op.Bins),
      ("interval", Json.num (op.Interval : ℚ))] "action" = Except.ok op.Action := rfl
  have hbins := decodeBinsField_marshal op
  rw [marshalOperation, unmarshalOperation]
  rw [hsens, hact, hbins, hint]
  rfl

/-- Claim C10: for every Operations list (any combination of SHARE, BIN
with bins, and MOVING_AVG with interval — the sensor ids and intervals
being uint32 values), `Operations.Scan` applied to the value produced by
`Operations.Value` returns the original list: the persist/read-back pair
is the identity on Operations. -/
theorem operations_value_scan_roundtrip (ops : List Operation)
    (hbound : ∀ op ∈ ops, op.SensorID < 4294967296 ∧ op.Interval < 4294967296) :
    operationsScan (operationsValue ops) = Except.ok ops := by
  rw [operationsValue, operationsScan]
  induction ops with
  | nil => rfl
  | cons op rest ih =>
    rcases hbound op (List.mem_cons_self op rest) with ⟨hs, hi⟩
    have hrest := ih fun o ho => hbound o (List.mem_cons_of_mem op ho)
    simp only [List.map_cons, unmarshalOperationList,
      unmarshalOperation_marshal op hs hi, hrest]
    rfl

/-- Witness for C10: a SHARE, a BIN with bins `[30, 80, 120]` and a
MOVING_AVG with interval 900 survive the round trip. -/
theorem operations_value_scan_roundtrip_witness :
    (∀ op ∈ ([⟨13, "SHARE", none, 0⟩,
        ⟨29, "BIN", some [30, 80, 120], 0⟩,
        ⟨12, "MOVING_AVG", none, 900⟩] : List Operation),
      op.SensorID < 4294967296 ∧ op.Interval < 4294967296) ∧
    operationsScan (operationsValue
        ([⟨13, "SHARE", none, 0⟩,
          ⟨29, "BIN", some [30, 80, 120], 0⟩,
          ⟨12, "MOVING_AVG", none, 900⟩] : List Operation)) =
      Except.ok
        ([⟨13, "SHARE", none, 0⟩,
          ⟨29, "BIN", some [30, 80, 120], 0⟩,
          ⟨12, "MOVING_AVG", none, 900⟩] : List Operation) := by
  refine ⟨by decide, ?_⟩
  exact operations_value_scan_roundtrip _ (by decide)

/-- Counterexample for C3 as stated: presenting a wrong delete token for
an existing stream makes the RPC return the twirp code `internal` (the
wrapped sql.ErrNoRows), not `not_found`; the registry state is
unchanged. -/
theorem delete_stream_wrong_token_counterexample :
    (rpcDeleteStream sampleDB emptyMqtt "pw" "b" "uuid-1" "wrong").1 = sampleDB ∧
    (rpcDeleteStream sampleDB emptyMqtt "pw" "b" "uuid-1" "wrong").2.1 = emptyMqtt ∧
    (rpcDeleteStream sampleDB emptyMqtt "pw" "b" "uuid-1" "wrong").2.2 =
      Except.error ⟨TwirpCode.internal,
        "failed to delete stream: sql: no rows in result set"⟩ ∧
    TwirpCode.internal ≠ TwirpCode.notFound := by
  refine ⟨by decide, by decide, rfl, by decide⟩

/-- Claim C3 (amended): for every DeleteStream call (with non-empty
arguments) in which either no stream carries the given stream_id or the
stored token does not decrypt to the presented delete_token, the RPC
returns the twirp code `internal` — not `not_found` — with one fixed
response for both causes, so the two causes are indistinguishable to the
caller, and no stream or device row is deleted: the state is
unchanged. -/
theorem delete_stream_no_match_internal (db : DBState) (mq : MqttState)
    (pw brokerAddr streamUid tok : String)
    (huid : streamUid ≠ "") (htok : tok ≠ "")
    (hnomatch : ∀ s ∈ db.streams,
      ¬(s.uuid = streamUid ∧ pgpSymDecrypt s.token pw = some tok)) :
    rpcDeleteStream db mq pw brokerAddr streamUid tok =
      (db, mq, Except.error ⟨TwirpCode.internal,
        "failed to delete stream: sql: no rows in result set"⟩) := by
  have hval : validateDeleteRequest streamUid tok = none := by
    rw [validateDeleteRequest, if_neg huid, if_neg htok]
  have hhits : (db.streams.filter fun s =>
      decide (s.uuid = streamUid) && decide (pgpSymDecrypt s.token pw = some tok)) = [] := by
    rw [List.filter_eq_nil]
    intro s hs
    simp only [Bool.and_eq_true, decide_eq_true_eq, not_and]
    intro h1 h2
    exact hnomatch s hs ⟨h1, h2⟩
  have hdel : dbDeleteStream db pw streamUid tok = Except.error DBErr.noRows := by
    simp only [dbDeleteStream, hhits]
  simp only [rpcDeleteStream, hval, hdel]

/-- Witness for C3 (amended) at the sample registry with a wrong
token. -/
theorem delete_stream_no_match_internal_witness :
    ("uuid-1" : String) ≠ "" ∧ ("wrong" : String) ≠ "" ∧
    (∀ s ∈ sampleDB.streams,
      ¬(s.uuid = "uuid-1" ∧ pgpSymDecrypt s.token "pw" = some "wrong")) ∧
    rpcDeleteStream sampleDB emptyMqtt "pw" "b" "uuid-1" "wrong" =
      (sampleDB, emptyMqtt, Except.error ⟨TwirpCode.internal,
        "failed to delete stream: sql: no rows in result set"⟩) := by
  refine ⟨by decide, by decide, by decide, ?_⟩
  exact delete_stream_no_match_internal sampleDB emptyMqtt "pw" "b" "uuid-1" "wrong"
    (by decide) (by decide) (by decide)

lemma length_filter_le_one_of_pairwise {α : Type} (l : List α) (p : α → Bool)
    (h : l.Pairwise fun a b => ¬(p a = true ∧ p b = true)) :
    (l.filter p).length ≤ 1 := by
  induction l with
  | nil => simp
  | cons a rest ih =>
    rcases List.pairwise_cons.mp h with ⟨hhead, htail⟩
    by_cases hpa : p a = true
    · have hrest : rest.filter p = [] := by
        rw [List.filter_eq_nil]
        intro b hb hpb
        exact hhead b hb ⟨hpa, hpb⟩
      simp [List.filter_cons, hpa, hrest]
    · simp only [List.filter_cons, if_neg hpa]
      exact ih htail

/-- With the registry invariants, two distinct device rows never share a
token, so a token determines the device id. -/
lemma device_token_inj (db : DBState) (hinv : DBInv db) :
    ∀ d1 ∈ db.devices, ∀ d2 ∈ db.devices,
      d1.device_token = d2.device_token → d1.id = d2.id := by
  intro d1 h1 d2 h2 htok
  by_contra hne
  have hsymm : Symmetric (fun (a b : DeviceRow) =>
      a.id ≠ b.id ∧ a.device_token ≠ b.device_token) := by
    intro a b hab
    exact ⟨Ne.symm hab.1, Ne.symm hab.2⟩
  have hd12 : d1 ≠ d2 := fun he => hne (by rw [he])
  exact (hinv.2.1.forall hsymm h1 h2 hd12).2 htok

/-- With the registry invariants, at most one stream exists for any
`(device_token, community_id)` pair. -/
lemma streamsForPair_le_one (db : DBState) (hinv : DBInv db) (tok c : String) :
    (streamsForPair db tok c).length ≤ 1 := by
  unfold streamsForPair
  apply length_filter_le_one_of_pairwise
  apply hinv.2.2.imp
  intro a b hab hcontra
  rcases hcontra with ⟨ha, hb⟩
  simp only [Bool.and_eq_true, decide_eq_true_eq, List.any_eq_true] at ha hb
  rcases ha with ⟨hac, d1, hd1, hd1p⟩
  rcases hb with ⟨hbc, d2, hd2, hd2p⟩
  have hids : d1.id = d2.id :=
    device_token_inj db hinv d1 hd1 d2 hd2 (hd1p.2.trans hd2p.2.symm)
  exact hab ⟨by rw [← hd1p.1, ← hd2p.1, hids], hac.trans hbc.symm⟩

lemma streams_pairwise_snoc (streams : List StreamRow) (new : StreamRow)
    (hpw : streams.Pairwise fun a b =>
      ¬(a.device_id = b.device_id ∧ a.community_id = b.community_id))
    (hnew : ∀ s ∈ streams,
      ¬(s.device_id = new.device_id ∧ s.community_id = new.community_id)) :
    (streams ++ [new]).Pairwise fun a b =>
      ¬(a.device_id = b.device_id ∧ a.community_id = b.community_id) := by
  rw [List.pairwise_append]
  refine ⟨hpw, List.pairwise_singleton _ _, ?_⟩
  intro a ha b hb
  rw [List.mem_singleton] at hb
  subst hb
  exact hnew a ha

/-- `DB.CreateStream` preserves the registry invariants. -/
lemma DBInv_dbCreateStream (db : DBState) (pw : String) (inp : StreamInput)
    (uuid ntok : String) (db2 : DBState) (out : String × String)
    (hinv : DBInv db) (h : dbCreateStream db pw inp uuid ntok = Except.ok (db2, out)) :
    DBInv db2 := by
  cases hfind : db.devices.find? (fun d => decide (d.device_token = inp.device_token)) with
  | some d =>
    simp only [dbCreateStream, hfind] at h
    by_cases hdup : (db.streams.any fun s =>
        decide (s.device_id = d.id) && decide (s.community_id = inp.community_id)) = true
    · rw [if_pos hdup] at h
      exact Except.noConfusion h
    · rw [if_neg hdup] at h
      simp only [Except.ok.injEq, Prod.mk.injEq] at h
      obtain ⟨hdb2, -⟩ := h
      subst hdb2
      have hfid : ∀ e : DeviceRow,
          (if e.id = d.id then
            (⟨e.id, e.device_token, inp.longitude, inp.latitude, inp.exposure,
              inp.device_label⟩ : DeviceRow)
          else e).id = e.id := by
        intro e
        by_cases hc : e.id = d.id <;> simp [hc]
      have hftok : ∀ e : DeviceRow,
          (if e.id = d.id then
            (⟨e.id, e.device_token, inp.longitude, inp.latitude, inp.exposure,
              inp.device_label⟩ : DeviceRow)
          else e).device_token = e.device_token := by
        intro e
        by_cases hc : e.id = d.id <;> simp [hc]
      refine ⟨?_, ?_, ?_⟩
      · intro e' he'
        rcases List.mem_map.mp he' with ⟨e, he, rfl⟩
        rw [hfid e]
        exact hinv.1 e he
      · rw [List.pairwise_map]
        apply hinv.2.1.imp
        intro a b hab
        rw [hfid a, hfid b, hftok a, hftok b]
        exact hab
      · apply streams_pairwise_snoc _ _ hinv.2.2
        intro s hs hcontra
        apply hdup
        rw [List.any_eq_true]
        exact ⟨s, hs, by simp [hcontra.1, hcontra.2]⟩
  | none =>
    simp only [dbCreateStream, hfind] at h
    by_cases hdup : (db.streams.any fun s =>
        decide (s.device_id = db.nextDeviceID) &&
          decide (s.community_id = inp.community_id)) = true
    · rw [if_pos hdup] at h
      exact Except.noConfusion h
    · rw [if_neg hdup] at h
      simp only [Except.ok.injEq, Prod.mk.injEq] at h
      obtain ⟨hdb2, -⟩ := h
      subst hdb2
      have hnotok : ∀ e ∈ db.devices, e.device_token ≠ inp.device_token := by
        intro e he
        have hp := List.find?_eq_none.mp hfind e he
        simpa using hp
      refine ⟨?_, ?_, ?_⟩
      · intro e' he'
        rcases List.mem_append.mp he' with he | he
        · show e'.id < db.nextDeviceID + 1
          have hb := hinv.1 e' he
          omega
        · rw [List.mem_singleton] at he
          subst he
          show db.nextDeviceID < db.nextDeviceID + 1
          omega
      · rw [List.pairwise_append]
        refine ⟨hinv.2.1, List.pairwise_singleton _ _, ?_⟩
        intro a ha b hb
        rw [List.mem_singleton] at hb
        subst hb
        constructor
        · show a.id ≠ db.nextDeviceID
          have hb := hinv.1 a ha
          omega
        · exact hnotok a ha
      · apply streams_pairwise_snoc _ _ hinv.2.2
        intro s hs hcontra
        apply hdup
        rw [List.any_eq_true]
        exact ⟨s, hs, by simp [hcontra.1, hcontra.2]⟩

/-- The RPC `CreateStream` preserves the registry invariants (every
failure path leaves the state unchanged). -/
lemma DBInv_rpcCreateStream (db : DBState) (mq : MqttState)
    (pw broker : String) (req : CreateStreamRequest) (uuid ntok : String)
    (sub : Bool) (hinv : DBInv db) :
    DBInv (rpcCreateStream db mq pw broker req uuid ntok sub).1 := by
  cases hval : validateCreateRequest req with
  | some e =>
    simp only [rpcCreateStream, hval]
    exact hinv
  | none =>
    cases hinp : createStreamInputOf req with
    | error e =>
      simp only [rpcCreateStream, hval, hinp]
      exact hinv
    | ok inp =>
      cases hdb : dbCreateStream db pw inp uuid ntok with
      | error e =>
        simp only [rpcCreateStream, hval, hinp, hdb]
        exact hinv
      | ok r =>
        obtain ⟨db2, uid, tok⟩ := r
        have h2 := DBInv_dbCreateStream db pw inp uuid ntok db2 (uid, tok) hinv hdb
        simp only [rpcCreateStream, hval, hinp, hdb]
        cases sub <;> simpa using h2

lemma DBInv_empty : DBInv emptyDB := by
  refine ⟨?_, ?_, ?_⟩
  · intro d hd
    exact absurd hd (List.not_mem_nil d)
  · exact List.Pairwise.nil
  · exact List.Pairwise.nil

lemma DBInv_runCreates (pw broker : String) (calls : List CreateCall) :
    DBInv (runCreates pw broker calls).1 := by
  suffices hgen : ∀ init : DBState × MqttState, DBInv init.1 →
      DBInv (calls.foldl (fun st c =>
        let r := rpcCreateStream st.1 st.2 pw broker c.req c.uuid c.token c.subscribeOk
        (r.1, r.2.1)) init).1 by
    exact hgen (emptyDB, emptyMqtt) DBInv_empty
  induction calls with
  | nil => exact fun init h => h
  | cons c rest ih =>
    intro init hinit
    simp only [List.foldl_cons]
    exact ih _ (DBInv_rpcCreateStream init.1 init.2 pw broker c.req c.uuid
      c.token c.subscribeOk hinit)

/-- `createStream` copies the device token and community id straight from
the request. -/
lemma createStreamInputOf_fields (req : CreateStreamRequest) (inp : StreamInput)
    (h : createStreamInputOf req = Except.ok inp) :
    inp.device_token = req.deviceToken ∧ inp.community_id = req.communityId := by
  cases hco : createOperations req.operations with
  | error e =>
    rw [createStreamInputOf] at h
    simp only [hco] at h
    exact Except.noConfusion h
  | ok ops =>
    rw [createStreamInputOf] at h
    simp only [hco, bind, Except.bind, pure, Except.pure, Except.ok.injEq] at h
    subst h
    exact ⟨rfl, rfl⟩

/-- Claim C4 (amended): for every sequence of CreateStream calls, two
successful creations for the same (device_token, community_id) pair
cannot both exist — at most one stream for the pair is ever registered —
and a second CreateStream for a pair that already has a stream fails with
the twirp code `internal` (not `already_exists`: the unique-index
violation is wrapped by `twirp.InternalErrorWith`), leaving the registry
unchanged, so exactly the one existing stream for the pair remains. -/
theorem create_stream_duplicate_pair_internal :
    (∀ (pw broker : String) (calls : List CreateCall) (tok c : String),
      (streamsForPair (runCreates pw broker calls).1 tok c).length ≤ 1) ∧
    (∀ (db : DBState) (mq : MqttState) (pw broker : String)
        (req : CreateStreamRequest) (uuid ntok : String) (sub : Bool)
        (inp : StreamInput),
      DBInv db →
      validateCreateRequest req = none →
      createStreamInputOf req = Except.ok inp →
      (∃ s ∈ db.streams, ∃ d ∈ db.devices,
        d.id = s.device_id ∧ d.device_token = req.deviceToken ∧
          s.community_id = req.communityId) →
      rpcCreateStream db mq pw broker req uuid ntok sub =
        (db, mq, Except.error ⟨TwirpCode.internal,
          "failed to create stream: device already registered within community"⟩)) := by
  constructor
  · intro pw broker calls tok c
    exact streamsForPair_le_one _ (DBInv_runCreates pw broker calls) tok c
  · intro db mq pw broker req uuid ntok sub inp hinv hval hinp hex
    rcases hex with ⟨s, hs, d, hd, hid, htok, hcomm⟩
    rcases createStreamInputOf_fields req inp hinp with ⟨hitok, hicomm⟩
    have hdup : ∀ deviceID : ℕ, s.device_id = deviceID →
        (db.streams.any fun t =>
          decide (t.device_id = deviceID) &&
            decide (t.community_id = inp.community_id)) = true := by
      intro deviceID hsid
      rw [List.any_eq_true]
      refine ⟨s, hs, ?_⟩
      simp [hsid, hicomm, hcomm]
    have hdbc : dbCreateStream db pw inp uuid ntok =
        Except.error DBErr.uniqueViolationStream := by
      cases hfind : db.devices.find?
          (fun e => decide (e.device_token = inp.device_token)) with
      | none =>
        exfalso
        have hp := List.find?_eq_none.mp hfind d hd
        rw [hitok] at hp
        simp [htok] at hp
      | some dfound =>
        have hmem : dfound ∈ db.devices := List.mem_of_find?_eq_some hfind
        have hptrue := List.find?_some hfind
        simp only [decide_eq_true_eq] at hptrue
        have hsameid : dfound.id = d.id :=
          device_token_inj db hinv dfound hmem d hd
            (by rw [hptrue, hitok, htok])
        simp only [dbCreateStream, hfind]
        rw [if_pos (hdup dfound.id (by rw [hsameid, hid]))]
    simp only [rpcCreateStream, hval, hinp, hdbc]

/-- Counterexample for C4 as stated: creating the same
(device_token, community_id) pair twice from an empty registry — the
second call fails with the twirp code `internal`, not `already_exists`
(and one stream for the pair remains). -/
theorem create_stream_duplicate_counterexample :
    (rpcCreateStream emptyDB emptyMqtt "pw" "b" sampleReq "u1" "t1" true).2.2 =
      Except.ok ("u1", "t1") ∧
    (rpcCreateStream
        (rpcCreateStream emptyDB emptyMqtt "pw" "b" sampleReq "u1" "t1" true).1
        (rpcCreateStream emptyDB emptyMqtt "pw" "b" sampleReq "u1" "t1" true).2.1
        "pw" "b" sampleReq "u2" "t2" true).2.2 =
      Except.error ⟨TwirpCode.internal,
        "failed to create stream: device already registered within community"⟩ ∧
    TwirpCode.internal ≠ TwirpCode.alreadyExists ∧
    (streamsForPair
        (rpcCreateStream
          (rpcCreateStream emptyDB emptyMqtt "pw" "b" sampleReq "u1" "t1" true).1
          (rpcCreateStream emptyDB emptyMqtt "pw" "b" sampleReq "u1" "t1" true).2.1
          "pw" "b" sampleReq "u2" "t2" true).1
        "abc123" "c1").length = 1 := by
  refine ⟨rfl, rfl, by decide, by decide⟩

/-- Witness for C4 (amended): the length bound after no calls, and the
second-call behaviour at the sample registry. -/
theorem create_stream_duplicate_pair_internal_witness :
    (streamsForPair (runCreates "pw" "b" []).1 "abc123" "c1").length ≤ 1 ∧
    DBInv sampleDB ∧
    validateCreateRequest sampleReq = none ∧
    rpcCreateStream sampleDB emptyMqtt "pw" "b" sampleReq "u2" "t2" true =
      (sampleDB, emptyMqtt, Except.error ⟨TwirpCode.internal,
        "failed to create stream: device already registered within community"⟩) := by
  have h := create_stream_duplicate_pair_internal
  refine ⟨h.1 "pw" "b" [] "abc123" "c1", ?_, by decide, ?_⟩
  · exact ⟨by decide, by decide, by decide⟩
  · exact h.2 sampleDB emptyMqtt "pw" "b" sampleReq "u2" "t2" true
      ⟨"c1", "PK1", [], "abc123", 1, 2, "indoor", ""⟩
      ⟨by decide, by decide, by decide⟩ (by decide) rfl
      ⟨⟨"uuid-1", 1, "c1", "PK1", pgpSymEncrypt "tok" "pw", []⟩, by decide,
        ⟨1, "abc123", 1, 2, "indoor", ""⟩, by decide, rfl, rfl, rfl⟩

end Iotencoder
